import Mathlib

/-!
Verification of the concurrent download orchestration subsystem of the
youtube-downloader repository.

The development shallowly embeds the Python sources:
  * `src/ytdownload/utils/helpers.py`   (`sanitize_filename`)
  * `src/ytdownload/services/downloader.py`
      (`DownloadType`, `DownloadTask`, `DownloadProgress`, `DownloadManager`
       with `add_task`, `download_video`, `_progress_hook`, `start_downloads`,
       `cancel_download`, `_update_progress`)

Python floats are modelled as rationals (`ℚ`), the `id → ProgressRecord`
dict as an insertion-ordered association list, the filesystem and the
media backend (`yt_dlp`) as an explicit environment record, and the
consumer progress callback as a behaviour record saying at which
invocation sites it would raise.  Exceptions are modelled as an
`Option String` component of each operation's result (`none` = normal
return); state mutations performed before a raise persist, as in Python.

The `asyncio.Semaphore` concurrency gate of `download_video` is modelled
separately as a small-step transition system (`GateStep`), since the
bounded-concurrency claim is about interleavings, while the remaining
claims are about the per-task sequential behaviour.
-/

namespace Ytdl

/-! ## Generic list helpers -/

/-- Substring test: does `pat` occur at the start of `s`?  (Char lists.) -/
def startsWithL : List Char → List Char → Bool
  | [], _ => true
  | _ :: _, [] => false
  | a :: as, b :: bs => a = b && startsWithL as bs

/-- Substring containment on char lists, i.e. Python's `pat in s`
(the empty pattern is contained in every string). -/
def containsL : List Char → List Char → Bool
  | [], pat => startsWithL pat []
  | c :: rest, pat => startsWithL pat (c :: rest) || containsL rest pat

/-- Python substring operator `pat in s` on strings. -/
def strContains (s pat : String) : Bool := containsL s.data pat.data

/-- Python `str.lower()` (character-wise lowercasing). -/
def strLower (s : String) : String := ⟨s.data.map Char.toLower⟩

/-- Count of elements satisfying a boolean predicate. -/
def countB {α : Type} (p : α → Bool) : List α → Nat
  | [] => 0
  | x :: xs => (if p x then 1 else 0) + countB p xs

/-- Remove the first element satisfying `p`; `none` if there is none.
This is the effect of `for i, x in enumerate(l): if p(x): del l[i]; break`. -/
def removeFirst {α : Type} (p : α → Bool) : List α → Option (List α)
  | [] => none
  | x :: xs => if p x then some xs else (removeFirst p xs).map (x :: ·)

theorem removeFirst_eq_none {α : Type} (p : α → Bool) (l : List α) :
    removeFirst p l = none ↔ countB p l = 0 := by
  induction l with
  | nil => simp [removeFirst, countB]
  | cons x xs ih =>
    by_cases hx : p x
    · simp [removeFirst, countB, hx]
    · simp only [removeFirst, countB, hx, Bool.false_eq_true, ite_false, Nat.zero_add]
      cases h : removeFirst p xs with
      | none => simp [h] at ih; simp [ih]
      | some l' => simp [h] at ih; simp [ih]

theorem removeFirst_count {α : Type} (p : α → Bool) (l : List α) (l' : List α)
    (h : removeFirst p l = some l') : countB p l' + 1 = countB p l := by
  induction l generalizing l' with
  | nil => simp [removeFirst] at h
  | cons x xs ih =>
    by_cases hx : p x
    · simp only [removeFirst, hx, if_true, Option.some.injEq] at h
      subst h
      simp only [countB, hx, if_true]
      omega
    · simp only [removeFirst, hx, Bool.false_eq_true, ite_false,
        Option.map_eq_some'] at h
      obtain ⟨l'', hl'', rfl⟩ := h
      simp only [countB, hx, Bool.false_eq_true, ite_false, Nat.zero_add]
      exact ih l'' hl''

theorem countB_eq_zero {α : Type} (p : α → Bool) (l : List α) :
    countB p l = 0 ↔ ∀ x ∈ l, p x = false := by
  induction l with
  | nil => simp [countB]
  | cons x xs ih =>
    by_cases hx : p x
    · simp [countB, hx]
    · simp [countB, hx, ih]

/-! ## Association lists (the `id → ProgressRecord` Python dict) -/

/-- First value stored under key `k`. -/
def alistGet? {β : Type} : List (String × β) → String → Option β
  | [], _ => none
  | p :: rest, k => if p.1 = k then some p.2 else alistGet? rest k

/-- Does the dict have key `k`? -/
def alistHas {β : Type} (l : List (String × β)) (k : String) : Bool :=
  (alistGet? l k).isSome

/-- Python dict assignment `d[k] = v`: overwrite in place (keeping insertion order) if the
key is present, append otherwise. -/
def alistSet {β : Type} (l : List (String × β)) (k : String) (v : β) :
    List (String × β) :=
  if alistHas l k then l.map (fun p => if p.1 = k then (p.1, v) else p)
  else l ++ [(k, v)]

/-- In-place update of the value stored under `k` (mutation of the record
object held in the dict). -/
def alistSetF {β : Type} (l : List (String × β)) (k : String) (f : β → β) :
    List (String × β) :=
  l.map (fun p => if p.1 = k then (p.1, f p.2) else p)

/-- Number of entries carrying key `k`. -/
def alistCount {β : Type} : List (String × β) → String → Nat
  | [], _ => 0
  | p :: rest, k => (if p.1 = k then 1 else 0) + alistCount rest k

theorem alistGet?_setF_self {β : Type} (l : List (String × β)) (k : String)
    (f : β → β) (v : β) (h : alistGet? l k = some v) :
    alistGet? (alistSetF l k f) k = some (f v) := by
  induction l with
  | nil => simp [alistGet?] at h
  | cons p rest ih =>
    by_cases hp : p.1 = k
    · simp only [alistGet?, hp, if_true, Option.some.injEq] at h
      simp [alistSetF, alistGet?, hp, h]
    · simp only [alistGet?, hp, ite_false] at h
      simpa [alistSetF, alistGet?, hp] using ih h

theorem alistGet?_setF_ne {β : Type} (l : List (String × β)) (k k' : String)
    (f : β → β) (h : k' ≠ k) :
    alistGet? (alistSetF l k f) k' = alistGet? l k' := by
  induction l with
  | nil => rfl
  | cons p rest ih =>
    show alistGet? ((if p.1 = k then (p.1, f p.2) else p) :: alistSetF rest k f) k'
        = alistGet? (p :: rest) k'
    by_cases hp : p.1 = k
    · rw [if_pos hp]
      have hp' : ¬ (p.1 = k') := fun hh => h (hh.symm.trans hp)
      show (if p.1 = k' then some (f p.2) else alistGet? (alistSetF rest k f) k')
          = (if p.1 = k' then some p.2 else alistGet? rest k')
      rw [if_neg hp', if_neg hp']
      exact ih
    · rw [if_neg hp]
      show (if p.1 = k' then some p.2 else alistGet? (alistSetF rest k f) k')
          = (if p.1 = k' then some p.2 else alistGet? rest k')
      by_cases hq : p.1 = k'
      · rw [if_pos hq, if_pos hq]
      · rw [if_neg hq, if_neg hq]; exact ih

theorem alistGet?_setF_map {β γ : Type} (l : List (String × β)) (k k' : String)
    (f : β → β) (g : β → γ) (hf : ∀ b, g (f b) = g b) :
    (alistGet? (alistSetF l k f) k').map g = (alistGet? l k').map g := by
  induction l with
  | nil => rfl
  | cons p rest ih =>
    show (alistGet? ((if p.1 = k then (p.1, f p.2) else p) :: alistSetF rest k f) k').map g
        = (alistGet? (p :: rest) k').map g
    by_cases hp : p.1 = k
    · rw [if_pos hp]
      show ((if p.1 = k' then some (f p.2) else alistGet? (alistSetF rest k f) k')).map g
          = ((if p.1 = k' then some p.2 else alistGet? rest k')).map g
      by_cases hq : p.1 = k'
      · rw [if_pos hq, if_pos hq]
        simp [hf]
      · rw [if_neg hq, if_neg hq]; exact ih
    · rw [if_neg hp]
      show ((if p.1 = k' then some p.2 else alistGet? (alistSetF rest k f) k')).map g
          = ((if p.1 = k' then some p.2 else alistGet? rest k')).map g
      by_cases hq : p.1 = k'
      · rw [if_pos hq, if_pos hq]
      · rw [if_neg hq, if_neg hq]; exact ih

theorem alistHas_setF {β : Type} (l : List (String × β)) (k k' : String)
    (f : β → β) : alistHas (alistSetF l k f) k' = alistHas l k' := by
  unfold alistHas
  have h := alistGet?_setF_map l k k' f (fun _ => ()) (fun _ => rfl)
  cases h1 : alistGet? (alistSetF l k f) k' <;> cases h2 : alistGet? l k' <;>
    simp [h1, h2] at h ⊢

theorem alistGet?_append {β : Type} (l1 l2 : List (String × β)) (k : String) :
    alistGet? (l1 ++ l2) k =
      (alistGet? l1 k).orElse (fun _ => alistGet? l2 k) := by
  induction l1 with
  | nil => simp [alistGet?]
  | cons p rest ih =>
    by_cases hp : p.1 = k
    · simp [alistGet?, hp]
    · simp [alistGet?, hp, ih]

theorem alistGet?_overwrite_self {β : Type} (l : List (String × β)) (k : String)
    (v : β) (h : alistHas l k = true) :
    alistGet? (l.map (fun p => if p.1 = k then (p.1, v) else p)) k = some v := by
  unfold alistHas at h
  induction l with
  | nil => simp [alistGet?] at h
  | cons p rest ih =>
    by_cases hp : p.1 = k
    · simp [alistGet?, hp]
    · simp only [alistGet?, hp, ite_false, Option.isSome] at h
      simp only [List.map_cons, hp, ite_false, alistGet?]
      exact ih h

theorem alistGet?_set_self {β : Type} (l : List (String × β)) (k : String)
    (v : β) : alistGet? (alistSet l k v) k = some v := by
  unfold alistSet
  by_cases h : alistHas l k
  · simp only [h, if_true]
    exact alistGet?_overwrite_self l k v h
  · simp only [h, Bool.false_eq_true, ite_false]
    rw [alistGet?_append]
    unfold alistHas at h
    cases hg : alistGet? l k with
    | some v' => simp [hg] at h
    | none => simp [hg, alistGet?, Option.orElse]

theorem alistCount_overwrite {β : Type} (l : List (String × β)) (k k' : String)
    (v : β) :
    alistCount (l.map (fun p => if p.1 = k then (p.1, v) else p)) k' =
      alistCount l k' := by
  induction l with
  | nil => simp [alistCount]
  | cons p rest ih =>
    by_cases hp : p.1 = k
    · simp [alistCount, hp, ih]
    · simp [alistCount, hp, ih]

theorem alistCount_append {β : Type} (l1 l2 : List (String × β)) (k : String) :
    alistCount (l1 ++ l2) k = alistCount l1 k + alistCount l2 k := by
  induction l1 with
  | nil => simp [alistCount]
  | cons p rest ih => simp [alistCount, ih]; omega

theorem alistCount_pos_of_has {β : Type} (l : List (String × β)) (k : String)
    (h : alistHas l k = true) : 1 ≤ alistCount l k := by
  unfold alistHas at h
  induction l with
  | nil => simp [alistGet?] at h
  | cons p rest ih =>
    by_cases hp : p.1 = k
    · simp [alistCount, hp]
    · simp only [alistGet?, hp, ite_false] at h
      simp only [alistCount, hp, ite_false, Nat.zero_add]
      exact ih h

theorem alistCount_zero_of_not_has {β : Type} (l : List (String × β))
    (k : String) (h : alistHas l k = false) : alistCount l k = 0 := by
  unfold alistHas at h
  induction l with
  | nil => simp [alistCount]
  | cons p rest ih =>
    by_cases hp : p.1 = k
    · simp [alistGet?, hp] at h
    · simp only [alistGet?, hp, ite_false] at h
      simp only [alistCount, hp, ite_false, Nat.zero_add]
      exact ih h

theorem alistCount_set {β : Type} (l : List (String × β)) (k : String) (v : β)
    (h : alistCount l k ≤ 1) : alistCount (alistSet l k v) k = 1 := by
  unfold alistSet
  by_cases hh : alistHas l k
  · simp only [hh, if_true, alistCount_overwrite]
    have := alistCount_pos_of_has l k hh
    omega
  · simp only [hh, Bool.false_eq_true, ite_false, alistCount_append]
    have := alistCount_zero_of_not_has l k (by simpa using hh)
    simp [this, alistCount]

/-! ## `helpers.sanitize_filename`

Embeds `src/ytdownload/utils/helpers.py`, lines 116–143.  Python strings
are char lists; `str.encode('utf-8')` length is computed per character by
the standard UTF-8 width of the code point. -/

/-- The cross-platform-invalid characters replaced by the regex
`[<>:"/\\|?*]` in `sanitize_filename`. -/
def invalidChars : List Char := ['<', '>', ':', '"', '/', '\\', '|', '?', '*']

/-- One step of `re.sub(invalid_chars, '_', filename)`. -/
def replaceInvalid (c : Char) : Char := if c ∈ invalidChars then '_' else c

/-- The whitespace characters removed by Python's default `str.strip()`
(ASCII whitespace: space, tab, newline, carriage return, vertical tab,
form feed). -/
def pythonSpace (c : Char) : Bool :=
  c = ' ' || c = '\t' || c = '\n' || c = '\r' ||
  c = Char.ofNat 11 || c = Char.ofNat 12

/-- Python's `str.strip(chars)`: drop matching characters from both ends. -/
def stripEnds (p : Char → Bool) (l : List Char) : List Char :=
  ((l.dropWhile p).reverse.dropWhile p).reverse

/-- UTF-8 byte width of one code point (what `len(ch.encode('utf-8'))`
yields). -/
def charUtf8Size (c : Char) : Nat :=
  if c.toNat < 0x80 then 1
  else if c.toNat < 0x800 then 2
  else if c.toNat < 0x10000 then 3
  else 4

/-- Byte length `len(s.encode('utf-8'))`. -/
def utf8Len (l : List Char) : Nat := (l.map charUtf8Size).sum

/-- The truncation loop of `sanitize_filename`:
`while len(sanitized.encode('utf-8')) > max_length: sanitized = sanitized[:-1]`
with `max_length = 255`. -/
def truncLoop (l : List Char) : List Char :=
  if h : 255 < utf8Len l then
    truncLoop l.dropLast
  else l
termination_by l.length
decreasing_by
  have hne : l ≠ [] := by
    intro hnil
    rw [hnil] at h
    simp [utf8Len] at h
  have : 0 < l.length := List.length_pos.mpr hne
  simp only [List.length_dropLast]
  omega

/-- The `if not sanitized: sanitized = "untitled"` fallback. -/
def fallbackUntitled (l : List Char) : List Char :=
  if l = [] then "untitled".data else l

/-- Model of `helpers.sanitize_filename`. -/
def sanitize_filename (filename : String) : String :=
  ⟨truncLoop (fallbackUntitled
    (stripEnds (fun c => c = '.')
      (stripEnds pythonSpace (filename.data.map replaceInvalid))))⟩

theorem mem_stripEnds {p : Char → Bool} {l : List Char} {c : Char}
    (h : c ∈ stripEnds p l) : c ∈ l := by
  unfold stripEnds at h
  rw [List.mem_reverse] at h
  have h1 := List.dropWhile_sublist (l := (l.dropWhile p).reverse) (p := p)
  have h2 := h1.mem h
  rw [List.mem_reverse] at h2
  exact (List.dropWhile_sublist (l := l) (p := p)).mem h2

theorem mem_truncLoop_aux (n : Nat) : ∀ l : List Char, l.length ≤ n →
    ∀ c : Char, c ∈ truncLoop l → c ∈ l := by
  induction n with
  | zero =>
    intro l hl c h
    have hnil : l = [] := List.length_eq_zero.mp (Nat.le_zero.mp hl)
    subst hnil
    rw [truncLoop] at h
    simp [utf8Len] at h
  | succ n ih =>
    intro l hl c h
    rw [truncLoop] at h
    split at h
    · next h255 =>
      have hne : l ≠ [] := by
        intro hnil; rw [hnil] at h255; simp [utf8Len] at h255
      have hpos : 0 < l.length := List.length_pos.mpr hne
      have hlen : l.dropLast.length ≤ n := by
        simp only [List.length_dropLast]; omega
      exact List.dropLast_subset l (ih _ hlen c h)
    · exact h

theorem mem_truncLoop {l : List Char} {c : Char} (h : c ∈ truncLoop l) :
    c ∈ l := mem_truncLoop_aux l.length l (Nat.le_refl _) c h

theorem utf8Len_truncLoop_aux (n : Nat) : ∀ l : List Char, l.length ≤ n →
    utf8Len (truncLoop l) ≤ 255 := by
  induction n with
  | zero =>
    intro l hl
    have hnil : l = [] := List.length_eq_zero.mp (Nat.le_zero.mp hl)
    subst hnil
    rw [truncLoop]
    split
    · next h255 => simp [utf8Len] at h255
    · simp [utf8Len]
  | succ n ih =>
    intro l hl
    rw [truncLoop]
    split
    · next h255 =>
      have hne : l ≠ [] := by
        intro hnil; rw [hnil] at h255; simp [utf8Len] at h255
      have hpos : 0 < l.length := List.length_pos.mpr hne
      have hlen : l.dropLast.length ≤ n := by
        simp only [List.length_dropLast]; omega
      exact ih _ hlen
    · next h255 => omega

theorem utf8Len_truncLoop (l : List Char) : utf8Len (truncLoop l) ≤ 255 :=
  utf8Len_truncLoop_aux l.length l (Nat.le_refl _)

theorem charUtf8Size_le (c : Char) : charUtf8Size c ≤ 4 := by
  unfold charUtf8Size
  split
  · omega
  · split
    · omega
    · split <;> omega

theorem utf8Len_le (l : List Char) : utf8Len l ≤ 4 * l.length := by
  induction l with
  | nil => simp [utf8Len]
  | cons c cs ih =>
    have := charUtf8Size_le c
    simp only [utf8Len, List.map_cons, List.sum_cons, List.length_cons] at *
    omega

theorem truncLoop_ne_nil_aux (n : Nat) : ∀ l : List Char, l.length ≤ n →
    l ≠ [] → truncLoop l ≠ [] := by
  induction n with
  | zero =>
    intro l hl hne
    exact absurd (List.length_eq_zero.mp (Nat.le_zero.mp hl)) hne
  | succ n ih =>
    intro l hl hne
    rw [truncLoop]
    split
    · next h255 =>
      have hbound := utf8Len_le l
      have hlen2 : 2 ≤ l.length := by omega
      have hne' : l.dropLast ≠ [] := by
        intro hnil
        have := congrArg List.length hnil
        simp only [List.length_dropLast, List.length_nil] at this
        omega
      have hlen : l.dropLast.length ≤ n := by
        simp only [List.length_dropLast]; omega
      exact ih _ hlen hne'
    · exact hne

theorem truncLoop_ne_nil {l : List Char} (h : l ≠ []) : truncLoop l ≠ [] :=
  truncLoop_ne_nil_aux l.length l (Nat.le_refl _) h

theorem fallbackUntitled_ne_nil (l : List Char) : fallbackUntitled l ≠ [] := by
  unfold fallbackUntitled
  split
  · decide
  · assumption

theorem mem_fallbackUntitled {l : List Char} {c : Char}
    (h : c ∈ fallbackUntitled l) : c ∈ "untitled".data ∨ c ∈ l := by
  unfold fallbackUntitled at h
  split at h
  · exact Or.inl h
  · exact Or.inr h

/-- C9.  `sanitize_filename` replaces every cross-platform-invalid
character, caps the UTF-8 byte length of the result at 255 bytes, and
never returns an empty name. -/
theorem sanitize_filename_safe (filename : String) :
    (∀ c ∈ (sanitize_filename filename).data, c ∉ invalidChars) ∧
    utf8Len (sanitize_filename filename).data ≤ 255 ∧
    sanitize_filename filename ≠ "" := by
  unfold sanitize_filename
  refine ⟨?_, ?_, ?_⟩
  · intro c hc
    simp only [String.data] at hc
    have hc1 := mem_truncLoop hc
    rcases mem_fallbackUntitled hc1 with huntitled | hrest
    · fin_cases huntitled <;> decide
    · have hc2 := mem_stripEnds (mem_stripEnds hrest)
      rw [List.mem_map] at hc2
      obtain ⟨c0, _, rfl⟩ := hc2
      unfold replaceInvalid
      split
      · decide
      · assumption
  · exact utf8Len_truncLoop _
  · intro hemp
    have hdata := congrArg String.data hemp
    simp only [String.data] at hdata
    exact truncLoop_ne_nil (fallbackUntitled_ne_nil _) hdata

/-! ## Data model (`downloader.py`) -/

/-- The `DownloadType` enum. -/
inductive DownloadType where
  | VIDEO
  | AUDIO
  | TRANSCRIPT
deriving DecidableEq

/-- The `DownloadTask` dataclass. -/
structure DownloadTask where
  video_id : String
  title : String
  download_type : DownloadType
  output_path : String
deriving DecidableEq

/-- The `DownloadProgress` dataclass (the ProgressRecord of the spec). -/
structure DownloadProgress where
  video_id : String
  title : String
  progress : ℚ
  status : String
  is_complete : Bool
  error : Option String
deriving DecidableEq

/-- The record created by `DownloadProgress(video_id=…, title=…)` with the
dataclass defaults. -/
def freshRecord (task : DownloadTask) : DownloadProgress :=
  ⟨task.video_id, task.title, 0, "Waiting", false, none⟩

/-- The mutable state of a `DownloadManager`.  `progress_callback` is
modelled by the flag `has_callback` (whether one is configured); what the
callback would *do* when invoked lives in `CallbackBehavior`.  The
`asyncio.Semaphore` is modelled separately (see `GateStep`). -/
structure DownloadManager where
  max_concurrent_downloads : Nat
  download_dir : String
  has_callback : Bool
  download_queue : List DownloadTask
  active_downloads : List String
  download_progress : List (String × DownloadProgress)
deriving DecidableEq

/-- Model of `DownloadManager.__init__` (module state only; directory creation is
filesystem I/O outside the model). -/
def initManager (max_concurrent_downloads : Nat) (download_dir : String)
    (has_callback : Bool) : DownloadManager :=
  ⟨max_concurrent_downloads, download_dir, has_callback, [], [], []⟩

/-- Whether the consumer-side progress callback raises an exception when
invoked at each of the sites where the manager/executor calls it. -/
structure CallbackBehavior where
  raiseOnAdd : Bool
  raiseOnDownloading : Bool
  raiseOnHook : Bool
  raiseOnUpdate : Bool
  raiseOnSuccess : Bool
  raiseOnError : Bool
  raiseOnCancel : Bool
deriving DecidableEq

/-- A callback that never raises. -/
def benignCb : CallbackBehavior := ⟨false, false, false, false, false, false, false⟩

/-- In-place mutation of the record stored under `id` (no-op when the key
is absent). -/
def setRecord (s : DownloadManager) (id : String)
    (f : DownloadProgress → DownloadProgress) : DownloadManager :=
  { s with download_progress := alistSetF s.download_progress id f }

/-! ## `add_task` -/

/-- Result of an operation that can also emit progress events and raise:
`exn = none` means normal return; mutations made before a raise persist. -/
structure AddResult where
  state : DownloadManager
  events : List DownloadProgress
  exn : Option String
deriving DecidableEq

/-- Model of `DownloadManager.add_task` (downloader.py lines 97–111): append the
task to the queue, (re)create the progress record, then — if a callback
is configured — invoke it with the freshly stored record.  The callback
invocation is *not* wrapped in try/except there, so a raising callback
propagates out of `add_task`. -/
def add_task (cb : CallbackBehavior) (s : DownloadManager)
    (task : DownloadTask) : AddResult :=
  let s' : DownloadManager :=
    { s with
      download_queue := s.download_queue ++ [task]
      download_progress :=
        alistSet s.download_progress task.video_id (freshRecord task) }
  if s.has_callback then
    -- `self.progress_callback(self.download_progress[task.video_id])`;
    -- the dict lookup returns the record just stored.
    ⟨s', [freshRecord task],
      if cb.raiseOnAdd then some "progress callback raised" else none⟩
  else
    ⟨s', [], none⟩

/-! ## Destination assignment and the planned batch of `start_downloads` -/

/-- Model of `os.path.join` for POSIX paths (the second component rule). -/
def joinPath (a b : String) : String :=
  if b.startsWith "/" then b
  else if a = "" || a.endsWith "/" then a ++ b
  else a ++ "/" ++ b

/-- Destination directory chosen by `start_downloads` for a task kind. -/
def outputPathFor (download_dir : String) : DownloadType → String
  | DownloadType.VIDEO => joinPath download_dir "video"
  | DownloadType.AUDIO => joinPath download_dir "audio"
  | DownloadType.TRANSCRIPT => joinPath download_dir "transcript"

/-- The tasks `start_downloads` drains and executes: every queue entry,
with `output_path` assigned from its kind (downloader.py lines 337–349). -/
def plannedTasks (s : DownloadManager) : List DownloadTask :=
  s.download_queue.map
    (fun t => { t with output_path := outputPathFor s.download_dir t.download_type })

/-- Number of queue entries carrying a given id. -/
def countIdTasks (l : List DownloadTask) (id : String) : Nat :=
  countB (fun t => decide (t.video_id = id)) l

theorem countIdTasks_planned (s : DownloadManager) (id : String) :
    countIdTasks (plannedTasks s) id = countIdTasks s.download_queue id := by
  unfold plannedTasks countIdTasks
  induction s.download_queue with
  | nil => rfl
  | cons t rest ih => simp only [List.map_cons, countB, ih]

theorem countB_append {α : Type} (p : α → Bool) (l1 l2 : List α) :
    countB p (l1 ++ l2) = countB p l1 + countB p l2 := by
  induction l1 with
  | nil => simp [countB]
  | cons x xs ih =>
    show (if p x then 1 else 0) + countB p (xs ++ l2) =
        ((if p x then 1 else 0) + countB p xs) + countB p l2
    rw [ih]
    omega

theorem countIdTasks_append (l1 l2 : List DownloadTask) (id : String) :
    countIdTasks (l1 ++ l2) id = countIdTasks l1 id + countIdTasks l2 id :=
  countB_append _ l1 l2

theorem add_task_state (cb : CallbackBehavior) (s : DownloadManager)
    (task : DownloadTask) :
    (add_task cb s task).state =
      { s with
        download_queue := s.download_queue ++ [task]
        download_progress :=
          alistSet s.download_progress task.video_id (freshRecord task) } := by
  unfold add_task
  by_cases hcb : s.has_callback <;> simp [hcb]

/-! ## Claim C8: `add_task` registration behaviour -/

/-- C8.  `add_task` appends the task to the pending queue, synchronously
stores a `Waiting` record with percent `0`, not done and no failure, and
emits exactly that record through the progress callback before returning
(when a callback is configured, and none otherwise). -/
theorem add_task_registers (cb : CallbackBehavior) (s : DownloadManager)
    (task : DownloadTask) :
    (add_task cb s task).state.download_queue = s.download_queue ++ [task] ∧
    alistGet? (add_task cb s task).state.download_progress task.video_id =
      some ⟨task.video_id, task.title, 0, "Waiting", false, none⟩ ∧
    (add_task cb s task).events =
      (if s.has_callback then [freshRecord task] else []) := by
  refine ⟨?_, ?_, ?_⟩
  · rw [add_task_state]
  · rw [add_task_state]
    exact alistGet?_set_self _ _ _
  · unfold add_task
    by_cases hcb : s.has_callback <;> simp [hcb]

/-! ## Claim C2: duplicate ids in one batch -/

/-- C2 (amended).  Submitting the same id twice leaves exactly one
progress record for that id, carrying the later task's title — but
`start_downloads` still executes one run per *queue entry*, so the
duplicated id is executed twice, not once. -/
theorem duplicate_id_record_wins (cb : CallbackBehavior) (s : DownloadManager)
    (t1 t2 : DownloadTask) (id : String)
    (h1 : t1.video_id = id) (h2 : t2.video_id = id)
    (hcount : alistCount s.download_progress id ≤ 1) :
    alistCount
        (add_task cb (add_task cb s t1).state t2).state.download_progress id = 1 ∧
    alistGet?
        (add_task cb (add_task cb s t1).state t2).state.download_progress id =
      some (freshRecord t2) ∧
    countIdTasks (plannedTasks (add_task cb (add_task cb s t1).state t2).state) id =
      countIdTasks s.download_queue id + 2 := by
  rw [add_task_state, add_task_state]
  refine ⟨?_, ?_, ?_⟩
  · show alistCount
        (alistSet (alistSet s.download_progress t1.video_id (freshRecord t1))
          t2.video_id (freshRecord t2)) id = 1
    rw [h1, h2]
    exact alistCount_set _ _ _ (le_of_eq (alistCount_set _ _ _ hcount))
  · show alistGet?
        (alistSet (alistSet s.download_progress t1.video_id (freshRecord t1))
          t2.video_id (freshRecord t2)) id = some (freshRecord t2)
    rw [h2]
    exact alistGet?_set_self _ _ _
  · rw [countIdTasks_planned]
    show countIdTasks ((s.download_queue ++ [t1]) ++ [t2]) id = _
    rw [countIdTasks_append, countIdTasks_append]
    have e1 : countIdTasks [t1] id = 1 := by
      unfold countIdTasks countB; simp [h1, countB]
    have e2 : countIdTasks [t2] id = 1 := by
      unfold countIdTasks countB; simp [h2, countB]
    rw [e1, e2]

/-- Concrete duplicated batch used to refute the execution half of C2:
two tasks with id `"v1"` submitted to a fresh manager. -/
def dupState : DownloadManager :=
  (add_task benignCb
    (add_task benignCb (initManager 5 "downloads" false)
      ⟨"v1", "first title", DownloadType.VIDEO, ""⟩).state
    ⟨"v1", "second title", DownloadType.AUDIO, ""⟩).state

/-- C2 (counterexample).  With the same id submitted twice in one batch,
`start_downloads` executes *two* runs for that id — the claim's "only one
task executes per id" is false on the code. -/
theorem duplicate_id_executes_twice :
    ¬ (countIdTasks (plannedTasks dupState) "v1" ≤ 1) := by decide

/-! ## Claim C1 counterexample: the `add_task` emission is unprotected -/

/-- A callback that raises (only) when invoked from `add_task`. -/
def raisingAddCb : CallbackBehavior := ⟨true, false, false, false, false, false, false⟩

/-- C1 (counterexample).  A callback exception at the registration
emission in `add_task` is *not* caught there: it propagates out of
`add_task`, contrary to the claim that every invocation site catches and
logs callback exceptions. -/
theorem add_task_callback_exception_escapes :
    (add_task raisingAddCb (initManager 5 "downloads" true)
      ⟨"v1", "title", DownloadType.VIDEO, ""⟩).exn ≠ none := by decide

/-- Witness for the amended C2 at a concrete duplicated batch. -/
theorem duplicate_id_record_wins_witness :
    alistCount dupState.download_progress "v1" = 1 ∧
    alistGet? dupState.download_progress "v1" =
      some (freshRecord ⟨"v1", "second title", DownloadType.AUDIO, ""⟩) ∧
    countIdTasks (plannedTasks dupState) "v1" =
      countIdTasks (initManager 5 "downloads" false).download_queue "v1" + 2 :=
  duplicate_id_record_wins benignCb (initManager 5 "downloads" false)
    ⟨"v1", "first title", DownloadType.VIDEO, ""⟩
    ⟨"v1", "second title", DownloadType.AUDIO, ""⟩ "v1" rfl rfl (by decide)

/-! ## The yt-dlp progress hook (`_progress_hook`, downloader.py 281–332)

A hook event is the dict `d` passed by the backend.  A field of type
`Option (Option ℚ)` distinguishes an absent key (`none`), a key present
with value `None` (`some none`) and a numeric value (`some (some v)`);
comparing `None > 0` raises `TypeError` in Python 3, which the hook
catches (together with `ValueError`) by setting the plain
`"Downloading..."` status. -/

structure HookData where
  status : String
  total_bytes : Option (Option ℚ)
  total_bytes_estimate : Option (Option ℚ)
  downloaded_bytes : Option (Option ℚ)
  percent_str : Option String
  errorMsg : Option String
deriving DecidableEq

/-- The `elif 'total_bytes_estimate' in d and d.get('total_bytes_estimate', 0) > 0`
branch and the shared fall-through that only refreshes the status text. -/
def hookEstimate (d : HookData) (p : DownloadProgress) : DownloadProgress :=
  match d.total_bytes_estimate with
  | some none => { p with status := "Downloading..." }
  | some (some te) =>
    if 0 < te then
      let p1 := match d.downloaded_bytes with
        | none => { p with progress := 0 / te * 100 }
        | some none => p
        | some (some dl) => { p with progress := dl / te * 100 }
      { p1 with status := "Downloading (" ++ d.percent_str.getD "?%" ++ ")" }
    else { p with status := "Downloading (" ++ d.percent_str.getD "?%" ++ ")" }
  | none => { p with status := "Downloading (" ++ d.percent_str.getD "?%" ++ ")" }

/-- The `d['status'] == 'downloading'` branch of `_progress_hook`
(downloader.py 294–315): percent from `downloaded_bytes / total_bytes`
when a strictly positive total (or estimated total) is reported, with the
`TypeError` guard mapping a present-but-`None` total to the bare
`"Downloading..."` status. -/
def hookDownloading (d : HookData) (p : DownloadProgress) : DownloadProgress :=
  match d.total_bytes with
  | some none => { p with status := "Downloading..." }
  | some (some tb) =>
    if 0 < tb then
      let p1 := match d.downloaded_bytes with
        | none => { p with progress := 0 / tb * 100 }
        | some none => p
        | some (some dl) => { p with progress := dl / tb * 100 }
      { p1 with status := "Downloading (" ++ d.percent_str.getD "?%" ++ ")" }
    else hookEstimate d p
  | none => hookEstimate d p

/-- Model of `_progress_hook`: early-return when the id is unknown, then dispatch
on the reported phase; the trailing callback invocation is wrapped in
try/except (downloader.py 325–332) and therefore has no effect on the
model state and cannot raise outward. -/
def progress_hook (d : HookData) (video_id : String) (s : DownloadManager) :
    DownloadManager :=
  if alistHas s.download_progress video_id then
    setRecord s video_id (fun p =>
      if d.status = "downloading" then hookDownloading d p
      else if d.status = "finished" then
        { p with status := "Processing", progress := 95 }
      else if d.status = "error" then
        { p with status := "Error", error := some (d.errorMsg.getD "Unknown error") }
      else p)
  else s

/-! Spec-shaped companions for C7: which strictly positive total (if any)
the downloading branch divides by, and which downloaded count it uses. -/

/-- The strictly positive estimated total the branch would fall back to. -/
def posEstimate (d : HookData) : Option ℚ :=
  match d.total_bytes_estimate with
  | some (some te) => if 0 < te then some te else none
  | _ => none

/-- The strictly positive total the downloading branch divides by
(`none` when no division happens on this event). -/
def posTotal (d : HookData) : Option ℚ :=
  match d.total_bytes with
  | some none => none
  | some (some tb) => if 0 < tb then some tb else posEstimate d
  | none => posEstimate d

/-- The dividend: `d.get('downloaded_bytes', 0)`, with `none` meaning the
key was present holding `None` (so the assignment is skipped). -/
def effDownloaded (d : HookData) : Option ℚ :=
  match d.downloaded_bytes with
  | none => some 0
  | some none => none
  | some (some v) => some v

/-- The percent the claim says a downloading event should leave behind:
`downloaded / total * 100` when a strictly positive (estimated) total and
a numeric downloaded count are present, the previous value otherwise. -/
def specExpectedPercent (d : HookData) (p : DownloadProgress) : ℚ :=
  match posTotal d, effDownloaded d with
  | some t, some dl => dl / t * 100
  | _, _ => p.progress

/-- C7.  On every `downloading` hook event: any total divided by is
strictly positive (so no division by zero can occur), the resulting
percent is exactly `downloaded / total * 100` when such a total exists
and the previous percent otherwise, and when no positive total or
estimate is present only the status text changes. -/
theorem hook_downloading_percent (d : HookData) (p : DownloadProgress)
    (h : d.status = "downloading") :
    (posTotal d).all (fun t => decide (0 < t)) = true ∧
    (hookDownloading d p).progress = specExpectedPercent d p ∧
    (posTotal d = none →
      (hookDownloading d p).progress = p.progress ∧
      (hookDownloading d p).error = p.error ∧
      (hookDownloading d p).is_complete = p.is_complete) := by
  clear h
  refine ⟨?_, ?_, ?_⟩
  · unfold posTotal posEstimate
    rcases d.total_bytes with _ | _ | tb
    · rcases d.total_bytes_estimate with _ | _ | te
      · simp
      · simp
      · by_cases hte : 0 < te <;> simp [hte]
    · simp
    · by_cases htb : 0 < tb
      · simp [htb]
      · rcases d.total_bytes_estimate with _ | _ | te
        · simp [htb]
        · simp [htb]
        · by_cases hte : 0 < te <;> simp [htb, hte]
  · unfold hookDownloading hookEstimate specExpectedPercent posTotal posEstimate effDownloaded
    rcases d.total_bytes with _ | _ | tb
    · rcases d.total_bytes_estimate with _ | _ | te
      · rcases d.downloaded_bytes with _ | _ | dl <;> simp
      · rcases d.downloaded_bytes with _ | _ | dl <;> simp
      · by_cases hte : 0 < te
        · rcases d.downloaded_bytes with _ | _ | dl <;> simp [hte]
        · rcases d.downloaded_bytes with _ | _ | dl <;> simp [hte]
    · simp
    · by_cases htb : 0 < tb
      · rcases d.downloaded_bytes with _ | _ | dl <;> simp [htb]
      · rcases d.total_bytes_estimate with _ | _ | te
        · rcases d.downloaded_bytes with _ | _ | dl <;> simp [htb]
        · simp [htb]
        · by_cases hte : 0 < te
          · rcases d.downloaded_bytes with _ | _ | dl <;> simp [htb, hte]
          · rcases d.downloaded_bytes with _ | _ | dl <;> simp [htb, hte]
  · unfold posTotal posEstimate hookDownloading hookEstimate
    rcases d.total_bytes with _ | _ | tb
    · rcases d.total_bytes_estimate with _ | _ | te
      · intro _; exact ⟨rfl, rfl, rfl⟩
      · intro _; exact ⟨rfl, rfl, rfl⟩
      · by_cases hte : 0 < te
        · intro hnone; simp [hte] at hnone
        · intro _; simp [hte]
    · intro _; exact ⟨rfl, rfl, rfl⟩
    · by_cases htb : 0 < tb
      · intro hnone; simp [htb] at hnone
      · rcases d.total_bytes_estimate with _ | _ | te
        · intro _; simp [htb]
        · intro _; simp [htb]
        · by_cases hte : 0 < te
          · intro hnone; simp [htb, hte] at hnone
          · intro _; simp [htb, hte]

/-- Witness for C7: a concrete downloading event with a 200-byte total
and 50 bytes downloaded. -/
theorem hook_downloading_percent_witness :
    (posTotal ⟨"downloading", some (some 200), none, some (some 50), some "25.0%", none⟩).all
      (fun t => decide (0 < t)) = true ∧
    (hookDownloading ⟨"downloading", some (some 200), none, some (some 50), some "25.0%", none⟩
        (freshRecord ⟨"v1", "title", DownloadType.VIDEO, ""⟩)).progress =
      specExpectedPercent ⟨"downloading", some (some 200), none, some (some 50), some "25.0%", none⟩
        (freshRecord ⟨"v1", "title", DownloadType.VIDEO, ""⟩) ∧
    (posTotal ⟨"downloading", some (some 200), none, some (some 50), some "25.0%", none⟩ = none →
      (hookDownloading ⟨"downloading", some (some 200), none, some (some 50), some "25.0%", none⟩
          (freshRecord ⟨"v1", "title", DownloadType.VIDEO, ""⟩)).progress =
        (freshRecord ⟨"v1", "title", DownloadType.VIDEO, ""⟩).progress ∧
      (hookDownloading ⟨"downloading", some (some 200), none, some (some 50), some "25.0%", none⟩
          (freshRecord ⟨"v1", "title", DownloadType.VIDEO, ""⟩)).error =
        (freshRecord ⟨"v1", "title", DownloadType.VIDEO, ""⟩).error ∧
      (hookDownloading ⟨"downloading", some (some 200), none, some (some 50), some "25.0%", none⟩
          (freshRecord ⟨"v1", "title", DownloadType.VIDEO, ""⟩)).is_complete =
        (freshRecord ⟨"v1", "title", DownloadType.VIDEO, ""⟩).is_complete) :=
  hook_downloading_percent _ _ rfl

/-! ## `cancel_download` (downloader.py 375–405) -/

/-- Result of `cancel_download`: final state, emitted progress events, the
Python return value (`none` when an exception propagated before the
`return` executed) and the propagated exception if any. -/
structure CancelResult where
  state : DownloadManager
  events : List DownloadProgress
  retval : Option Bool
  exn : Option String
deriving DecidableEq

/-- Shared tail of both cancellation branches: if the id is tracked, set
its record's status to `newStatus` and emit the record through the
callback (unprotected — a raising callback propagates and the `return
True` is never reached); then return `True`. -/
def cancelMark (cb : CallbackBehavior) (s : DownloadManager)
    (video_id newStatus : String) : CancelResult :=
  if alistHas s.download_progress video_id then
    let s2 := setRecord s video_id (fun p => { p with status := newStatus })
    match alistGet? s2.download_progress video_id with
    | some rec =>
      if s.has_callback then
        if cb.raiseOnCancel then ⟨s2, [rec], none, some "progress callback raised"⟩
        else ⟨s2, [rec], some true, none⟩
      else ⟨s2, [], some true, none⟩
    | none => ⟨s2, [], some true, none⟩
  else ⟨s, [], some true, none⟩

/-- Model of `DownloadManager.cancel_download`: delete the first queue entry with
the id and mark its record `Canceled`; otherwise, if the id is currently
active, mark the record `Canceling` (advisory, nothing removed);
otherwise return `False` touching nothing. -/
def cancel_download (cb : CallbackBehavior) (s : DownloadManager)
    (video_id : String) : CancelResult :=
  match removeFirst (fun t => decide (t.video_id = video_id)) s.download_queue with
  | some q' => cancelMark cb { s with download_queue := q' } video_id "Canceled"
  | none =>
    if decide (video_id ∈ s.active_downloads) then
      cancelMark cb s video_id "Canceling"
    else ⟨s, [], some false, none⟩

theorem cancelMark_retval (cb : CallbackBehavior) (s : DownloadManager)
    (video_id newStatus : String) (hcb : cb.raiseOnCancel = false) :
    (cancelMark cb s video_id newStatus).retval = some true := by
  unfold cancelMark
  by_cases hhas : alistHas s.download_progress video_id
  · simp only [hhas, if_true]
    rcases h : alistGet? (setRecord s video_id
        (fun p => { p with status := newStatus })).download_progress video_id with _ | rec
    · rfl
    · by_cases hcall : s.has_callback
      · simp [hcall, hcb]
      · simp [hcall]
  · simp [hhas]

theorem cancelMark_queue (cb : CallbackBehavior) (s : DownloadManager)
    (video_id newStatus : String) :
    (cancelMark cb s video_id newStatus).state.download_queue =
      s.download_queue := by
  unfold cancelMark
  by_cases hhas : alistHas s.download_progress video_id
  · simp only [hhas, if_true]
    rcases h : alistGet? (setRecord s video_id
        (fun p => { p with status := newStatus })).download_progress video_id with _ | rec
    · rfl
    · by_cases hcall : s.has_callback
      · by_cases hraise : cb.raiseOnCancel <;> simp [hcall, hraise, setRecord]
      · simp [hcall, setRecord]
  · simp [hhas]

theorem cancelMark_progress (cb : CallbackBehavior) (s : DownloadManager)
    (video_id newStatus : String) (p0 : DownloadProgress)
    (hp : alistGet? s.download_progress video_id = some p0) :
    alistGet? (cancelMark cb s video_id newStatus).state.download_progress
      video_id = some { p0 with status := newStatus } := by
  have hhas : alistHas s.download_progress video_id = true := by
    unfold alistHas; rw [hp]; rfl
  have hget : alistGet?
      (alistSetF s.download_progress video_id (fun p => { p with status := newStatus }))
      video_id = some { p0 with status := newStatus } :=
    alistGet?_setF_self _ _ _ _ hp
  unfold cancelMark
  simp only [hhas, if_true]
  rw [show (setRecord s video_id
      (fun p => { p with status := newStatus })).download_progress
      = alistSetF s.download_progress video_id (fun p => { p with status := newStatus })
    from rfl]
  rw [hget]
  by_cases hcall : s.has_callback
  · by_cases hraise : cb.raiseOnCancel <;>
      simp [hcall, hraise, setRecord, hget]
  · simp [hcall, setRecord, hget]

/-! ## Claim C6: cancelling a pending task -/

/-- C6.  For a pending, never-started task whose id occurs once in the
queue: `cancel_download` removes it from the queue, its record becomes
`Canceled` with every other field (in particular the percent) unchanged,
and a subsequent `start_downloads` does not execute any task with that
id. -/
theorem cancel_pending_task (cb : CallbackBehavior) (s : DownloadManager)
    (video_id : String) (p0 : DownloadProgress)
    (hcb : cb.raiseOnCancel = false)
    (hq : countIdTasks s.download_queue video_id = 1)
    (hp : alistGet? s.download_progress video_id = some p0) :
    (cancel_download cb s video_id).retval = some true ∧
    countIdTasks (cancel_download cb s video_id).state.download_queue video_id = 0 ∧
    alistGet? (cancel_download cb s video_id).state.download_progress video_id =
      some { p0 with status := "Canceled" } ∧
    countIdTasks (plannedTasks (cancel_download cb s video_id).state) video_id = 0 := by
  have hrem : removeFirst (fun t => decide (t.video_id = video_id)) s.download_queue ≠ none := by
    rw [Ne, removeFirst_eq_none]
    unfold countIdTasks at hq
    omega
  rcases hq' : removeFirst (fun t => decide (t.video_id = video_id)) s.download_queue with _ | q'
  · exact absurd hq' hrem
  · have hcount : countIdTasks q' video_id = 0 := by
      have := removeFirst_count _ _ _ hq'
      unfold countIdTasks at hq ⊢
      omega
    unfold cancel_download
    rw [hq']
    refine ⟨cancelMark_retval _ _ _ _ hcb, ?_, ?_, ?_⟩
    · rw [cancelMark_queue]
      exact hcount
    · exact cancelMark_progress _ _ _ _ _ hp
    · rw [countIdTasks_planned, cancelMark_queue]
      exact hcount

/-- Witness for C6: cancelling the only pending task of a concrete
manager. -/
theorem cancel_pending_task_witness :
    (cancel_download benignCb
        (add_task benignCb (initManager 5 "downloads" true)
          ⟨"v1", "title", DownloadType.VIDEO, ""⟩).state "v1").retval = some true ∧
    countIdTasks (cancel_download benignCb
        (add_task benignCb (initManager 5 "downloads" true)
          ⟨"v1", "title", DownloadType.VIDEO, ""⟩).state "v1").state.download_queue "v1" = 0 ∧
    alistGet? (cancel_download benignCb
        (add_task benignCb (initManager 5 "downloads" true)
          ⟨"v1", "title", DownloadType.VIDEO, ""⟩).state "v1").state.download_progress "v1" =
      some { freshRecord ⟨"v1", "title", DownloadType.VIDEO, ""⟩ with status := "Canceled" } ∧
    countIdTasks (plannedTasks (cancel_download benignCb
        (add_task benignCb (initManager 5 "downloads" true)
          ⟨"v1", "title", DownloadType.VIDEO, ""⟩).state "v1").state) "v1" = 0 :=
  cancel_pending_task benignCb _ "v1" (freshRecord ⟨"v1", "title", DownloadType.VIDEO, ""⟩)
    rfl (by decide) (by decide)

/-! ## Claim C10: `cancel_download` return value and effects -/

/-- Is some queue entry carrying this id? -/
def queueHasId (s : DownloadManager) (video_id : String) : Bool :=
  s.download_queue.any (fun t => decide (t.video_id = video_id))

theorem queueHasId_false_iff (s : DownloadManager) (video_id : String) :
    queueHasId s video_id = false ↔
      countB (fun t => decide (t.video_id = video_id)) s.download_queue = 0 := by
  unfold queueHasId
  rw [countB_eq_zero]
  induction s.download_queue with
  | nil => simp
  | cons t rest ih => simp_all [List.any_cons]

/-- C10.  `cancel_download` (with a non-raising callback) returns `True`
exactly when the id is pending or active at call time; when it is
neither, it returns `False` leaving the state untouched and emitting
nothing; when it is active but not pending (and tracked), it marks the
record `Canceling` while keeping it stored. -/
theorem cancel_download_contract (cb : CallbackBehavior) (s : DownloadManager)
    (video_id : String) (hcb : cb.raiseOnCancel = false) :
    ((cancel_download cb s video_id).retval = some true ↔
      (queueHasId s video_id = true ∨ video_id ∈ s.active_downloads)) ∧
    (queueHasId s video_id = false → video_id ∉ s.active_downloads →
      (cancel_download cb s video_id).retval = some false ∧
      (cancel_download cb s video_id).state = s ∧
      (cancel_download cb s video_id).events = []) ∧
    (∀ p0, queueHasId s video_id = false → video_id ∈ s.active_downloads →
      alistGet? s.download_progress video_id = some p0 →
      alistGet? (cancel_download cb s video_id).state.download_progress video_id =
        some { p0 with status := "Canceling" }) := by
  refine ⟨?_, ?_, ?_⟩
  · rcases hq' : removeFirst (fun t => decide (t.video_id = video_id))
        s.download_queue with _ | q'
    · have hqf : queueHasId s video_id = false := by
        rw [queueHasId_false_iff]
        exact (removeFirst_eq_none _ _).mp hq'
      unfold cancel_download
      rw [hq']
      by_cases hact : video_id ∈ s.active_downloads
      · rw [if_pos (by simpa using hact)]
        constructor
        · intro _
          exact Or.inr hact
        · intro _
          exact cancelMark_retval _ _ _ _ hcb
      · rw [if_neg (by simpa using hact)]
        simp [hqf, hact]
    · have hqt : queueHasId s video_id = true := by
        by_contra hqf
        have hz := (queueHasId_false_iff s video_id).mp
          (Bool.not_eq_true _ ▸ eq_false_of_ne_true hqf)
        have hz' := (removeFirst_eq_none
          (fun t : DownloadTask => decide (t.video_id = video_id))
          s.download_queue).mpr hz
        rw [hq'] at hz'
        exact absurd hz' (by simp)
      unfold cancel_download
      rw [hq']
      simp [cancelMark_retval _ _ _ _ hcb, hqt]
  · intro hqf hact
    have hnone : removeFirst (fun t => decide (t.video_id = video_id))
        s.download_queue = none :=
      (removeFirst_eq_none _ _).mpr ((queueHasId_false_iff s video_id).mp hqf)
    unfold cancel_download
    rw [hnone, if_neg (by simpa using hact)]
    exact ⟨rfl, rfl, rfl⟩
  · intro p0 hqf hact hp
    have hnone : removeFirst (fun t => decide (t.video_id = video_id))
        s.download_queue = none :=
      (removeFirst_eq_none _ _).mpr ((queueHasId_false_iff s video_id).mp hqf)
    unfold cancel_download
    rw [hnone, if_pos (by simpa using hact)]
    exact cancelMark_progress _ _ _ _ _ hp

/-- State with one active (already started) download and an empty queue,
used to witness C10. -/
def activeState : DownloadManager :=
  ⟨5, "downloads", true, [], ["v9"],
    [("v9", ⟨"v9", "active title", 37, "Downloading", false, none⟩)]⟩

/-- Witness for C10 on a concrete manager whose only download is active. -/
theorem cancel_download_contract_witness :
    ((cancel_download benignCb activeState "v9").retval = some true ↔
      (queueHasId activeState "v9" = true ∨ "v9" ∈ activeState.active_downloads)) ∧
    (queueHasId activeState "v9" = false → "v9" ∉ activeState.active_downloads →
      (cancel_download benignCb activeState "v9").retval = some false ∧
      (cancel_download benignCb activeState "v9").state = activeState ∧
      (cancel_download benignCb activeState "v9").events = []) ∧
    (∀ p0, queueHasId activeState "v9" = false →
      "v9" ∈ activeState.active_downloads →
      alistGet? activeState.download_progress "v9" = some p0 →
      alistGet? (cancel_download benignCb activeState "v9").state.download_progress "v9" =
        some { p0 with status := "Canceling" }) :=
  cancel_download_contract benignCb activeState "v9" rfl

/-! ## Transcript verification probe (downloader.py 204–260) -/

/-- Index of the last occurrence of a character (Python `str.rfind`). -/
def lastIdxOf (c : Char) : List Char → Option Nat
  | [] => none
  | x :: xs =>
    match lastIdxOf c xs with
    | some i => some (i + 1)
    | none => if x = c then some 0 else none

/-- Root part of `os.path.splitext` for POSIX paths: split at the last
dot when it lies after the last separator and the base name is not made
of leading dots only. -/
def splitextRoot (p : String) : String :=
  let l := p.data
  match lastIdxOf '.' l with
  | none => p
  | some di =>
    let fstart := match lastIdxOf '/' l with
      | none => 0
      | some si => si + 1
    let afterSep := match lastIdxOf '/' l with
      | none => true
      | some si => decide (si < di)
    if afterSep then
      if ((l.drop fstart).take (di - fstart)).any (fun c => decide (c ≠ '.')) then
        ⟨l.take di⟩
      else p
    else p

/-- The `possible_extensions` list (downloader.py line 210). -/
def possible_extensions : List String :=
  [".vtt", ".srt", ".ttml", ".sbv", ".srv3", ".srv2", ".srv1"]

/-- The language codes probed (downloader.py line 230). -/
def subtitleLangs : List String := ["en", "en-US", "en-GB"]

/-- The direct probe (downloader.py 228–242): for each candidate
extension, try `base.lang + ext` for each language code and also
`base + ext` without a language code.  The loop only ever sets
`subtitle_found = True`, so its final value is this disjunction. -/
def probeFound (fs : List String) (base_path : String) : Bool :=
  possible_extensions.any (fun ext =>
    subtitleLangs.any (fun lang => fs.contains (base_path ++ "." ++ lang ++ ext)) ||
    fs.contains (base_path ++ ext))

/-- The directory-scan fallback (downloader.py 244–257): a listed file
counts when its lowercased name contains some candidate extension and
either the task's id (as-is) or the lowercased title. -/
def scanFound (listing : List String) (video_id title : String) : Bool :=
  listing.any (fun filename =>
    (possible_extensions.any (fun ext => strContains (strLower filename) ext)) &&
    (strContains (strLower filename) video_id ||
     strContains (strLower filename) (strLower title)))

/-- Environment of one task execution: what the backend and the
filesystem do.  `transferExn` is the exception (if any) raised by
`YoutubeDL(...).download(...)`; `hookEvents` are the progress-hook events
it delivers before returning; `prepared` is the base filename produced by
`extract_info` + `prepare_filename` (`none` when that raises); `fs` is
the set of paths that exist on disk; `listing` the file names
`os.listdir` returns for the task's output directory. -/
structure TaskEnv where
  transferExn : Option String
  hookEvents : List HookData
  prepared : Option String
  fs : List String
  listing : List String

/-- The expected subtitle base path (downloader.py 212–226): the prepared
filename with its extension split off, falling back (on exception or
empty result) to `os.path.join(task.output_path, task.title)`. -/
def computeBasePath (env : TaskEnv) (task : DownloadTask) : String :=
  match env.prepared with
  | some base_filename =>
    let base_path := splitextRoot base_filename
    if base_path = "" then joinPath task.output_path task.title else base_path
  | none => joinPath task.output_path task.title

/-! ## `_update_progress` and the executor body -/

/-- Model of `DownloadManager._update_progress` (downloader.py 407–430): update
percent and status when the id is tracked; the callback invocation is
wrapped in try/except, so a raising callback has no effect here. -/
def update_progress (s : DownloadManager) (video_id : String) (percent : ℚ)
    (status : String) : DownloadManager :=
  if alistHas s.download_progress video_id then
    setRecord s video_id (fun p => { p with progress := percent, status := status })
  else s

/-- Python `set.add`. -/
def insertStr (l : List String) (x : String) : List String :=
  if x ∈ l then l else l ++ [x]

/-- Python `set.discard`. -/
def removeStr (l : List String) (x : String) : List String :=
  l.filter (fun y => decide (y ≠ x))

/-- Failure tail of `download_video` (the outer `except` at 272–277 plus
the `finally` at 278–279): record the wrapped failure, re-emit through
the callback (unprotected), discard the id from `active_downloads`. -/
def dvFinishErr (hasCb raiseErr : Bool) (s6 : DownloadManager)
    (video_id msg : String) : DownloadManager × Option String :=
  let s7 := setRecord s6 video_id (fun p =>
    { p with error := some ("Failed to download transcript: " ++ msg),
             status := "Error" })
  let s8 := { s7 with active_downloads := removeStr s7.active_downloads video_id }
  if hasCb && raiseErr then (s8, some "progress callback raised")
  else (s8, none)

/-- Transfer stage of `download_video` (lines 169–202): enter the
semaphore, add to `active_downloads`, the synthetic `_update_progress`
stages (the transcript stages run on a daemon thread concurrent with the
backend call; they are linearised before it here), then the backend call
delivering the environment's hook events to `_progress_hook`. -/
def dvRun (env : TaskEnv) (task : DownloadTask) (s1 : DownloadManager) :
    DownloadManager :=
  let s2 := { s1 with active_downloads := insertStr s1.active_downloads task.video_id }
  let s3 := update_progress s2 task.video_id 10 "Starting download..."
  let s4 :=
    if task.download_type = DownloadType.TRANSCRIPT then
      let sa := update_progress s3 task.video_id 25 "Fetching transcript..."
      let sb := update_progress sa task.video_id 40 "Requesting subtitles..."
      let sc := update_progress sb task.video_id 60 "Processing transcript..."
      update_progress sc task.video_id 80 "Finalizing transcript..."
    else s3
  env.hookEvents.foldl (fun st d => progress_hook d task.video_id st) s4

/-- Success tail of `download_video` (lines 265–270 plus the handlers):
set the completion fields and emit; the emission at line 269 sits inside
the outer `try`, so a raising callback there is caught by the `except`
and recorded as a task failure (after which the re-emission at 277 may
itself raise); the `finally` always discards the id. -/
def dvFinishOk (hasCb raiseSucc raiseErr : Bool) (s6 : DownloadManager)
    (video_id : String) : DownloadManager × Option String :=
  let s7 := setRecord s6 video_id (fun p =>
    { p with is_complete := true, progress := 100, status := "Complete" })
  if hasCb && raiseSucc then
    let s8 := setRecord s7 video_id (fun p =>
      { p with error := some "progress callback raised", status := "Error" })
    let s9 := { s8 with active_downloads := removeStr s8.active_downloads video_id }
    if hasCb && raiseErr then (s9, some "progress callback raised")
    else (s9, none)
  else
    ({ s7 with active_downloads := removeStr s7.active_downloads video_id }, none)

/-- Model of `DownloadManager.download_video` (downloader.py 123–279), linearised:

  * record lookup (`KeyError` when the id is untracked, line 131);
  * `status = "Downloading"` and the *unprotected* callback emission
    (lines 132–135) — a raising callback propagates here;
  * inside the outer `try`: enter the semaphore, add to
    `active_downloads`, the `_update_progress` stages (the transcript
    synthetic stages are produced by a daemon thread concurrent with the
    backend call; they are linearised before it here), then the backend
    call delivering `env.hookEvents` to the hook and either returning or
    raising `env.transferExn`;
  * for transcripts, the verification probe; when nothing is found,
    `Exception("No transcript was available for this video")` is raised;
  * the inner `except` (line 261) wraps any exception of the `try` at
    line 197 — for every task kind — into
    `"Failed to download transcript: …"` and re-raises;
  * the outer `except` (272–277) records the failure and re-emits
    (unprotected — a raising callback propagates after the `finally`);
  * on success (265–270) the completion fields are set and the emission
    at line 269 is *inside* the outer `try`, so a raise there is caught
    and recorded as a task failure;
  * the `finally` (278–279) always discards the id from
    `active_downloads`. -/
def download_video (cb : CallbackBehavior) (env : TaskEnv)
    (task : DownloadTask) (s0 : DownloadManager) :
    DownloadManager × Option String :=
  if alistHas s0.download_progress task.video_id then
    let s1 := setRecord s0 task.video_id (fun p => { p with status := "Downloading" })
    if s0.has_callback && cb.raiseOnDownloading then
      (s1, some "progress callback raised")
    else
      let s5 := dvRun env task s1
      let inner : DownloadManager × Option String :=
        match env.transferExn with
        | some msg => (s5, some msg)
        | none =>
          if task.download_type = DownloadType.TRANSCRIPT then
            let s6 := update_progress s5 task.video_id 90 "Verifying transcript..."
            if probeFound env.fs (computeBasePath env task) ||
                scanFound env.listing task.video_id task.title then
              (s6, none)
            else
              (s6, some "No transcript was available for this video")
          else (s5, none)
      match inner with
      | (s6, some msg) =>
        dvFinishErr s0.has_callback cb.raiseOnError s6 task.video_id msg
      | (s6, none) =>
        dvFinishOk s0.has_callback cb.raiseOnSuccess cb.raiseOnError s6 task.video_id
  else (s0, some "KeyError")

/-! ## `start_downloads` (downloader.py 334–352) -/

/-- Result of the batch run. -/
structure RunResult where
  state : DownloadManager
  exn : Option String

/-- Model of `asyncio.gather` over the drained tasks, linearised; the propagated
exception (if any) is the first one raised. -/
def runTasks (cb : CallbackBehavior) (envs : Nat → TaskEnv) (i : Nat) :
    List DownloadTask → DownloadManager → RunResult
  | [], s => ⟨s, none⟩
  | t :: rest, s =>
    let r1 := download_video cb (envs i) t s
    let r2 := runTasks cb envs (i + 1) rest r1.1
    ⟨r2.state, match r1.2 with | some m => some m | none => r2.exn⟩

/-- Model of `DownloadManager.start_downloads`: assign per-kind destination
directories, drain the queue, and run every drained task. -/
def start_downloads (cb : CallbackBehavior) (envs : Nat → TaskEnv)
    (s : DownloadManager) : RunResult :=
  runTasks cb envs 0 (plannedTasks s) { s with download_queue := [] }

/-! ## Terminal-state observables -/

/-- A record is terminal: `done` or `failure` set. -/
def isTerminal (p : DownloadProgress) : Bool := p.is_complete || p.error.isSome

/-- Is the record stored under the id terminal? -/
def terminalAt (s : DownloadManager) (video_id : String) : Bool :=
  match alistGet? s.download_progress video_id with
  | some p => isTerminal p
  | none => false

/-- Every id in the list has a terminal record. -/
def allTerminal (s : DownloadManager) (ids : List String) : Bool :=
  ids.all (fun id => terminalAt s id)

/-- The `done` flag of the record stored under an id. -/
def recordDoneAt (s : DownloadManager) (video_id : String) : Option Bool :=
  (alistGet? s.download_progress video_id).map (fun p => p.is_complete)

/-- The `failure` field of the record stored under an id. -/
def recordErrAt (s : DownloadManager) (video_id : String) :
    Option (Option String) :=
  (alistGet? s.download_progress video_id).map (fun p => p.error)

/-! ## Preservation lemmas: key set, other keys, and the `done` flag -/

theorem alistHas_setRecord (s : DownloadManager) (id k : String)
    (f : DownloadProgress → DownloadProgress) :
    alistHas (setRecord s id f).download_progress k =
      alistHas s.download_progress k :=
  alistHas_setF _ _ _ _

theorem alistHas_update_progress (s : DownloadManager) (id k : String)
    (v : ℚ) (st : String) :
    alistHas (update_progress s id v st).download_progress k =
      alistHas s.download_progress k := by
  unfold update_progress
  split
  · exact alistHas_setRecord _ _ _ _
  · rfl

theorem alistHas_progress_hook (d : HookData) (id : String)
    (s : DownloadManager) (k : String) :
    alistHas (progress_hook d id s).download_progress k =
      alistHas s.download_progress k := by
  unfold progress_hook
  split
  · exact alistHas_setRecord _ _ _ _
  · rfl

theorem alistHas_hookFold (l : List HookData) (id : String)
    (s : DownloadManager) (k : String) :
    alistHas ((l.foldl (fun st d => progress_hook d id st) s).download_progress) k =
      alistHas s.download_progress k := by
  induction l generalizing s with
  | nil => rfl
  | cons d rest ih =>
    show alistHas ((rest.foldl (fun st d => progress_hook d id st)
        (progress_hook d id s)).download_progress) k = _
    rw [ih, alistHas_progress_hook]

theorem recordDoneAt_setRecord (s : DownloadManager) (id k : String)
    (f : DownloadProgress → DownloadProgress)
    (hf : ∀ p, (f p).is_complete = p.is_complete) :
    recordDoneAt (setRecord s id f) k = recordDoneAt s k :=
  alistGet?_setF_map _ _ _ _ _ hf

theorem recordDoneAt_update_progress (s : DownloadManager) (id k : String)
    (v : ℚ) (st : String) :
    recordDoneAt (update_progress s id v st) k = recordDoneAt s k := by
  unfold update_progress
  split
  · exact recordDoneAt_setRecord _ _ _ _ (fun p => rfl)
  · rfl

theorem hookDownloading_is_complete (d : HookData) (p : DownloadProgress) :
    (hookDownloading d p).is_complete = p.is_complete := by
  unfold hookDownloading hookEstimate
  rcases d.total_bytes with _ | _ | tb
  · rcases d.total_bytes_estimate with _ | _ | te
    · rfl
    · rfl
    · by_cases hte : 0 < te
      · rcases d.downloaded_bytes with _ | _ | dl <;> simp [hte]
      · simp [hte]
  · rfl
  · by_cases htb : 0 < tb
    · rcases d.downloaded_bytes with _ | _ | dl <;> simp [htb]
    · rcases d.total_bytes_estimate with _ | _ | te
      · simp [htb]
      · simp [htb]
      · by_cases hte : 0 < te
        · rcases d.downloaded_bytes with _ | _ | dl <;> simp [htb, hte]
        · simp [htb, hte]

theorem recordDoneAt_progress_hook (d : HookData) (id : String)
    (s : DownloadManager) (k : String) :
    recordDoneAt (progress_hook d id s) k = recordDoneAt s k := by
  unfold progress_hook
  split
  · refine recordDoneAt_setRecord _ _ _ _ (fun p => ?_)
    by_cases h1 : d.status = "downloading"
    · simp [h1, hookDownloading_is_complete]
    · by_cases h2 : d.status = "finished"
      · simp [h1, h2]
      · by_cases h3 : d.status = "error"
        · simp [h1, h2, h3]
        · simp [h1, h2, h3]
  · rfl

theorem recordDoneAt_hookFold (l : List HookData) (id : String)
    (s : DownloadManager) (k : String) :
    recordDoneAt (l.foldl (fun st d => progress_hook d id st) s) k =
      recordDoneAt s k := by
  induction l generalizing s with
  | nil => rfl
  | cons d rest ih =>
    show recordDoneAt (rest.foldl (fun st d => progress_hook d id st)
        (progress_hook d id s)) k = _
    rw [ih, recordDoneAt_progress_hook]

theorem alistGet?_setRecord_ne (s : DownloadManager) (id k : String)
    (f : DownloadProgress → DownloadProgress) (h : k ≠ id) :
    alistGet? (setRecord s id f).download_progress k =
      alistGet? s.download_progress k :=
  alistGet?_setF_ne _ _ _ _ h

theorem alistGet?_update_progress_ne (s : DownloadManager) (id k : String)
    (v : ℚ) (st : String) (h : k ≠ id) :
    alistGet? (update_progress s id v st).download_progress k =
      alistGet? s.download_progress k := by
  unfold update_progress
  split
  · exact alistGet?_setRecord_ne _ _ _ _ h
  · rfl

theorem alistGet?_progress_hook_ne (d : HookData) (id : String)
    (s : DownloadManager) (k : String) (h : k ≠ id) :
    alistGet? (progress_hook d id s).download_progress k =
      alistGet? s.download_progress k := by
  unfold progress_hook
  split
  · exact alistGet?_setRecord_ne _ _ _ _ h
  · rfl

theorem alistGet?_hookFold_ne (l : List HookData) (id : String)
    (s : DownloadManager) (k : String) (h : k ≠ id) :
    alistGet? ((l.foldl (fun st d => progress_hook d id st) s).download_progress) k =
      alistGet? s.download_progress k := by
  induction l generalizing s with
  | nil => rfl
  | cons d rest ih =>
    show alistGet? ((rest.foldl (fun st d => progress_hook d id st)
        (progress_hook d id s)).download_progress) k = _
    rw [ih, alistGet?_progress_hook_ne _ _ _ _ h]

/-! ## Behaviour of the two finishing tails -/

theorem dvFinishErr_exn (hasCb raiseErr : Bool) (s : DownloadManager)
    (video_id msg : String) (hre : raiseErr = false) :
    (dvFinishErr hasCb raiseErr s video_id msg).2 = none := by
  subst hre
  simp [dvFinishErr]

theorem dvFinishOk_exn (hasCb raiseSucc raiseErr : Bool) (s : DownloadManager)
    (video_id : String) (hre : raiseErr = false) :
    (dvFinishOk hasCb raiseSucc raiseErr s video_id).2 = none := by
  subst hre
  by_cases hb : hasCb && raiseSucc <;> simp [dvFinishOk, hb]

theorem dvFinishErr_has (hasCb raiseErr : Bool) (s : DownloadManager)
    (video_id msg k : String) :
    alistHas (dvFinishErr hasCb raiseErr s video_id msg).1.download_progress k =
      alistHas s.download_progress k := by
  by_cases hb : hasCb && raiseErr <;>
    simp [dvFinishErr, hb, setRecord, alistHas_setF]

theorem dvFinishOk_has (hasCb raiseSucc raiseErr : Bool) (s : DownloadManager)
    (video_id k : String) :
    alistHas (dvFinishOk hasCb raiseSucc raiseErr s video_id).1.download_progress k =
      alistHas s.download_progress k := by
  by_cases hb : hasCb && raiseSucc <;> by_cases hc : hasCb && raiseErr <;>
    simp [dvFinishOk, hb, hc, setRecord, alistHas_setF]

theorem dvFinishErr_get (hasCb raiseErr : Bool) (s : DownloadManager)
    (video_id msg : String) (q : DownloadProgress)
    (hq : alistGet? s.download_progress video_id = some q) :
    alistGet? (dvFinishErr hasCb raiseErr s video_id msg).1.download_progress
        video_id =
      some { q with error := some ("Failed to download transcript: " ++ msg),
                    status := "Error" } := by
  have h1 := alistGet?_setF_self s.download_progress video_id
    (fun p => { p with error := some ("Failed to download transcript: " ++ msg),
                       status := "Error" }) q hq
  by_cases hb : hasCb && raiseErr <;>
    simp [dvFinishErr, hb, setRecord, h1]

theorem dvFinishErr_terminal (hasCb raiseErr : Bool) (s : DownloadManager)
    (video_id msg : String)
    (hs : alistHas s.download_progress video_id = true) :
    terminalAt (dvFinishErr hasCb raiseErr s video_id msg).1 video_id = true := by
  obtain ⟨q, hq⟩ : ∃ q, alistGet? s.download_progress video_id = some q := by
    unfold alistHas at hs
    cases h : alistGet? s.download_progress video_id with
    | none => rw [h] at hs; simp at hs
    | some q => exact ⟨q, rfl⟩
  unfold terminalAt
  rw [dvFinishErr_get hasCb raiseErr s video_id msg q hq]
  simp [isTerminal]

theorem dvFinishOk_terminal (hasCb raiseSucc raiseErr : Bool)
    (s : DownloadManager) (video_id : String)
    (hs : alistHas s.download_progress video_id = true) :
    terminalAt (dvFinishOk hasCb raiseSucc raiseErr s video_id).1 video_id = true := by
  obtain ⟨q, hq⟩ : ∃ q, alistGet? s.download_progress video_id = some q := by
    unfold alistHas at hs
    cases h : alistGet? s.download_progress video_id with
    | none => rw [h] at hs; simp at hs
    | some q => exact ⟨q, rfl⟩
  have h1 := alistGet?_setF_self s.download_progress video_id
    (fun p => { p with is_complete := true, progress := 100, status := "Complete" }) q hq
  by_cases hb : hasCb && raiseSucc
  · have h2 := alistGet?_setF_self _ video_id
      (fun p => { p with error := some "progress callback raised", status := "Error" }) _ h1
    by_cases hc : hasCb && raiseErr <;>
      simp [dvFinishOk, hb, hc, terminalAt, setRecord, h2, isTerminal]
  · simp [dvFinishOk, hb, terminalAt, setRecord, h1, isTerminal]

theorem dvFinishErr_get_ne (hasCb raiseErr : Bool) (s : DownloadManager)
    (video_id msg k : String) (h : k ≠ video_id) :
    alistGet? (dvFinishErr hasCb raiseErr s video_id msg).1.download_progress k =
      alistGet? s.download_progress k := by
  by_cases hb : hasCb && raiseErr <;>
    simp [dvFinishErr, hb, setRecord, alistGet?_setF_ne _ _ _ _ h]

theorem dvFinishOk_get_ne (hasCb raiseSucc raiseErr : Bool)
    (s : DownloadManager) (video_id k : String) (h : k ≠ video_id) :
    alistGet? (dvFinishOk hasCb raiseSucc raiseErr s video_id).1.download_progress k =
      alistGet? s.download_progress k := by
  by_cases hb : hasCb && raiseSucc <;> by_cases hc : hasCb && raiseErr <;>
    simp [dvFinishOk, hb, hc, setRecord, alistGet?_setF_ne _ _ _ _ h]

theorem dvRun_has (env : TaskEnv) (task : DownloadTask)
    (s1 : DownloadManager) (k : String) :
    alistHas (dvRun env task s1).download_progress k =
      alistHas s1.download_progress k := by
  by_cases htype : task.download_type = DownloadType.TRANSCRIPT <;>
    simp [dvRun, htype, alistHas_update_progress, alistHas_hookFold]

theorem dvRun_done (env : TaskEnv) (task : DownloadTask)
    (s1 : DownloadManager) (k : String) :
    recordDoneAt (dvRun env task s1) k = recordDoneAt s1 k := by
  have hstruct : ∀ s : DownloadManager,
      recordDoneAt
        { s with active_downloads := insertStr s.active_downloads task.video_id } k =
      recordDoneAt s k := fun s => rfl
  by_cases htype : task.download_type = DownloadType.TRANSCRIPT <;>
    simp [dvRun, htype, recordDoneAt_update_progress, recordDoneAt_hookFold, hstruct]

theorem dvRun_frame (env : TaskEnv) (task : DownloadTask)
    (s1 : DownloadManager) (k : String) (h : k ≠ task.video_id) :
    alistGet? (dvRun env task s1).download_progress k =
      alistGet? s1.download_progress k := by
  by_cases htype : task.download_type = DownloadType.TRANSCRIPT <;>
    simp [dvRun, htype, h, alistGet?_update_progress_ne, alistGet?_hookFold_ne]

/-! ## Behaviour of one `download_video` run -/

theorem download_video_has (cb : CallbackBehavior) (env : TaskEnv)
    (task : DownloadTask) (s0 : DownloadManager) (k : String) :
    alistHas (download_video cb env task s0).1.download_progress k =
      alistHas s0.download_progress k := by
  unfold download_video
  by_cases hk : alistHas s0.download_progress task.video_id
  · rcases henv : env.transferExn with _ | msg <;>
      by_cases hcbd : s0.has_callback && cb.raiseOnDownloading <;>
      by_cases htype : task.download_type = DownloadType.TRANSCRIPT <;>
      by_cases hfound : (probeFound env.fs (computeBasePath env task) ||
        scanFound env.listing task.video_id task.title) = true <;>
      simp [hk, henv, hcbd, htype, hfound, alistHas_setRecord,
        alistHas_update_progress, dvRun_has, alistHas_setF, setRecord,
        dvFinishErr_has, dvFinishOk_has]
  · simp [hk]

theorem download_video_frame (cb : CallbackBehavior) (env : TaskEnv)
    (task : DownloadTask) (s0 : DownloadManager) (k : String)
    (h : k ≠ task.video_id) :
    alistGet? (download_video cb env task s0).1.download_progress k =
      alistGet? s0.download_progress k := by
  unfold download_video
  by_cases hk : alistHas s0.download_progress task.video_id
  · rcases henv : env.transferExn with _ | msg <;>
      by_cases hcbd : s0.has_callback && cb.raiseOnDownloading <;>
      by_cases htype : task.download_type = DownloadType.TRANSCRIPT <;>
      by_cases hfound : (probeFound env.fs (computeBasePath env task) ||
        scanFound env.listing task.video_id task.title) = true <;>
      simp [hk, henv, hcbd, htype, hfound, setRecord, h,
        alistGet?_setF_ne, alistGet?_update_progress_ne, dvRun_frame,
        dvFinishErr_get_ne, dvFinishOk_get_ne]
  · simp [hk]

theorem download_video_ok (cb : CallbackBehavior) (env : TaskEnv)
    (task : DownloadTask) (s0 : DownloadManager)
    (hk : alistHas s0.download_progress task.video_id = true)
    (h2 : cb.raiseOnDownloading = false) (h3 : cb.raiseOnError = false) :
    (download_video cb env task s0).2 = none ∧
    terminalAt (download_video cb env task s0).1 task.video_id = true := by
  have hguard : (s0.has_callback && cb.raiseOnDownloading) = false := by
    rw [h2, Bool.and_false]
  unfold download_video
  rcases henv : env.transferExn with _ | msg <;>
    by_cases htype : task.download_type = DownloadType.TRANSCRIPT <;>
    by_cases hfound : (probeFound env.fs (computeBasePath env task) ||
      scanFound env.listing task.video_id task.title) = true <;>
    simp only [hk, hguard, henv, htype, hfound, Bool.false_eq_true,
      eq_self_iff_true, if_true, if_false, ite_true, ite_false] <;>
    refine ⟨by first
      | exact dvFinishErr_exn _ _ _ _ _ h3
      | exact dvFinishOk_exn _ _ _ _ _ h3, ?_⟩ <;>
    first
      | exact dvFinishErr_terminal _ _ _ _ _ (by
          simp [alistHas_update_progress, dvRun_has, alistHas_setF,
            setRecord, hk])
      | exact dvFinishOk_terminal _ _ _ _ _ (by
          simp [alistHas_update_progress, dvRun_has, alistHas_setF,
            setRecord, hk])

/-! ## Claim C1 (amended): containment of callback exceptions -/

/-- C1 (amended).  Callback exceptions are contained only at the
protected emission sites: for every callback behaviour that does not
raise at the two unprotected task-path sites (the `Downloading` emission
at lines 134–135 and the error-path emission at lines 276–277) — it may
still raise at every per-hook emission, at every `_update_progress`
emission and at the success emission — `download_video` propagates no
exception and drives its record to a terminal state.  (The counterexample
`add_task_callback_exception_escapes` shows the unprotected registration
emission in `add_task` does propagate, refuting the claim as stated.) -/
theorem callback_exceptions_contained (cb : CallbackBehavior) (env : TaskEnv)
    (task : DownloadTask) (s0 : DownloadManager)
    (hk : alistHas s0.download_progress task.video_id = true)
    (h2 : cb.raiseOnDownloading = false) (h3 : cb.raiseOnError = false) :
    (download_video cb env task s0).2 = none ∧
    terminalAt (download_video cb env task s0).1 task.video_id = true :=
  download_video_ok cb env task s0 hk h2 h3

/-- A callback raising at every protected site (hooks, synthetic updates,
success emission) but not at the unprotected ones. -/
def protectedSitesCb : CallbackBehavior := ⟨false, false, true, true, true, false, false⟩

/-- Concrete task, registered state and environment (one hook event, a
successful transfer) for the C1 witness. -/
def c1Task : DownloadTask := ⟨"v1", "title", DownloadType.VIDEO, ""⟩

def c1State : DownloadManager :=
  (add_task benignCb (initManager 5 "downloads" true) c1Task).state

def c1Env : TaskEnv :=
  ⟨none, [⟨"downloading", some (some 200), none, some (some 50), some "25.0%", none⟩],
    none, [], []⟩

/-- Witness for the amended C1: with the raising-at-protected-sites
callback, the concrete task still finishes without propagating and ends
terminal. -/
theorem callback_exceptions_contained_witness :
    (download_video protectedSitesCb c1Env c1Task c1State).2 = none ∧
    terminalAt (download_video protectedSitesCb c1Env c1Task c1State).1
      c1Task.video_id = true :=
  callback_exceptions_contained protectedSitesCb c1Env c1Task c1State
    (by decide) rfl rfl

/-! ## Claim C3: transcript verification failure -/

/-- The error message recorded when transcript verification finds
nothing: line 260's message wrapped by the inner `except` at line 263. -/
def noTranscriptMsg : String :=
  "Failed to download transcript: No transcript was available for this video"

/-- C3.  For a Transcript task whose backend call returns without raising
but whose verification probe and directory-scan fallback find no subtitle
file, the final record's `failure` field is set to the wrapped
"no transcript" message (whose lowercasing contains "no transcript"), and
`done` stays false. -/
theorem transcript_verification_failure (cb : CallbackBehavior)
    (env : TaskEnv) (task : DownloadTask) (s0 : DownloadManager)
    (p0 : DownloadProgress)
    (htype : task.download_type = DownloadType.TRANSCRIPT)
    (henv : env.transferExn = none)
    (hprobe : probeFound env.fs (computeBasePath env task) = false)
    (hscan : scanFound env.listing task.video_id task.title = false)
    (hp : alistGet? s0.download_progress task.video_id = some p0)
    (hdone : p0.is_complete = false)
    (h2 : cb.raiseOnDownloading = false) :
    recordErrAt (download_video cb env task s0).1 task.video_id =
      some (some noTranscriptMsg) ∧
    recordDoneAt (download_video cb env task s0).1 task.video_id = some false ∧
    strContains (strLower noTranscriptMsg) "no transcript" = true := by
  have hk : alistHas s0.download_progress task.video_id = true := by
    unfold alistHas
    rw [hp]
    rfl
  have hguard : (s0.has_callback && cb.raiseOnDownloading) = false := by
    rw [h2, Bool.and_false]
  have hmid_has : alistHas (update_progress
      (dvRun env task (setRecord s0 task.video_id
        (fun p => { p with status := "Downloading" })))
      task.video_id 90 "Verifying transcript...").download_progress
      task.video_id = true := by
    simp [alistHas_update_progress, dvRun_has, alistHas_setF, setRecord, hk]
  have hmid_done : recordDoneAt (update_progress
      (dvRun env task (setRecord s0 task.video_id
        (fun p => { p with status := "Downloading" })))
      task.video_id 90 "Verifying transcript...") task.video_id = some false := by
    rw [recordDoneAt_update_progress, dvRun_done,
      recordDoneAt_setRecord s0 task.video_id task.video_id
        (fun p => { p with status := "Downloading" }) (fun p => rfl)]
    unfold recordDoneAt
    rw [hp]
    simp [hdone]
  obtain ⟨q, hq⟩ : ∃ q, alistGet? (update_progress
      (dvRun env task (setRecord s0 task.video_id
        (fun p => { p with status := "Downloading" })))
      task.video_id 90 "Verifying transcript...").download_progress
      task.video_id = some q := by
    unfold alistHas at hmid_has
    cases h : alistGet? (update_progress
        (dvRun env task (setRecord s0 task.video_id
          (fun p => { p with status := "Downloading" })))
        task.video_id 90 "Verifying transcript...").download_progress
        task.video_id with
    | none => rw [h] at hmid_has; simp at hmid_has
    | some q => exact ⟨q, rfl⟩
  have hqdone : q.is_complete = false := by
    unfold recordDoneAt at hmid_done
    rw [hq] at hmid_done
    simpa using hmid_done
  have hfin := dvFinishErr_get s0.has_callback cb.raiseOnError _ task.video_id
    "No transcript was available for this video" q hq
  unfold download_video
  simp only [hk, hguard, henv, htype, hprobe, hscan, Bool.false_eq_true,
    Bool.or_self, eq_self_iff_true, if_true, if_false, ite_true, ite_false]
  refine ⟨?_, ?_, ?_⟩
  · unfold recordErrAt
    rw [hfin]
    rfl
  · unfold recordDoneAt
    rw [hfin]
    simp [hqdone]
  · decide

/-- A registered transcript task for the C3 witness. -/
def c3Task : DownloadTask :=
  ⟨"v1", "title", DownloadType.TRANSCRIPT, "downloads/transcript"⟩

def c3State : DownloadManager :=
  (add_task benignCb (initManager 5 "downloads" true) c3Task).state

/-- Environment where the backend "succeeds" but writes nothing to disk:
empty filesystem and empty destination listing. -/
def c3Env : TaskEnv := ⟨none, [], none, [], []⟩

/-- Witness for C3 on a concrete empty-filesystem run. -/
theorem transcript_verification_failure_witness :
    recordErrAt (download_video benignCb c3Env c3Task c3State).1
      c3Task.video_id = some (some noTranscriptMsg) ∧
    recordDoneAt (download_video benignCb c3Env c3Task c3State).1
      c3Task.video_id = some false ∧
    strContains (strLower noTranscriptMsg) "no transcript" = true :=
  transcript_verification_failure benignCb c3Env c3Task c3State
    (freshRecord c3Task) rfl rfl (by decide) (by decide) (by decide) rfl rfl

/-! ## Claim C4: the batch completes with every task terminal -/

theorem terminalAt_eq_of_get (s1 s2 : DownloadManager) (k : String)
    (h : alistGet? s1.download_progress k = alistGet? s2.download_progress k) :
    terminalAt s1 k = terminalAt s2 k := by
  unfold terminalAt
  rw [h]

theorem runTasks_has (cb : CallbackBehavior) (envs : Nat → TaskEnv) (i : Nat)
    (ts : List DownloadTask) (s : DownloadManager) (k : String) :
    alistHas (runTasks cb envs i ts s).state.download_progress k =
      alistHas s.download_progress k := by
  induction ts generalizing i s with
  | nil => rfl
  | cons t rest ih =>
    show alistHas (runTasks cb envs (i + 1) rest
        (download_video cb (envs i) t s).1).state.download_progress k = _
    rw [ih, download_video_has]

theorem runTasks_frame (cb : CallbackBehavior) (envs : Nat → TaskEnv) (i : Nat)
    (ts : List DownloadTask) (s : DownloadManager) (k : String)
    (h : ∀ t ∈ ts, t.video_id ≠ k) :
    alistGet? (runTasks cb envs i ts s).state.download_progress k =
      alistGet? s.download_progress k := by
  induction ts generalizing i s with
  | nil => rfl
  | cons t rest ih =>
    show alistGet? (runTasks cb envs (i + 1) rest
        (download_video cb (envs i) t s).1).state.download_progress k = _
    rw [ih _ _ (fun t' ht' => h t' (List.mem_cons_of_mem _ ht')),
      download_video_frame _ _ _ _ _ (Ne.symm (h t (List.mem_cons_self _ _)))]

theorem runTasks_exn (cb : CallbackBehavior) (envs : Nat → TaskEnv) (i : Nat)
    (ts : List DownloadTask) (s : DownloadManager)
    (hall : ∀ t ∈ ts, alistHas s.download_progress t.video_id = true)
    (h2 : cb.raiseOnDownloading = false) (h3 : cb.raiseOnError = false) :
    (runTasks cb envs i ts s).exn = none := by
  induction ts generalizing i s with
  | nil => rfl
  | cons t rest ih =>
    have h1 := download_video_ok cb (envs i) t s
      (hall t (List.mem_cons_self _ _)) h2 h3
    show (match (download_video cb (envs i) t s).2 with
      | some m => some m
      | none => (runTasks cb envs (i + 1) rest
          (download_video cb (envs i) t s).1).exn) = none
    rw [h1.1]
    exact ih (i + 1) _ (fun t' ht' => by
      rw [download_video_has]
      exact hall t' (List.mem_cons_of_mem _ ht'))

theorem runTasks_terminal (cb : CallbackBehavior) (envs : Nat → TaskEnv)
    (i : Nat) (ts : List DownloadTask) (s : DownloadManager) (k : String)
    (hall : ∀ t ∈ ts, alistHas s.download_progress t.video_id = true)
    (h2 : cb.raiseOnDownloading = false) (h3 : cb.raiseOnError = false)
    (hmem : ∃ t ∈ ts, t.video_id = k) :
    terminalAt (runTasks cb envs i ts s).state k = true := by
  induction ts generalizing i s with
  | nil =>
    rcases hmem with ⟨t, ht, _⟩
    exact absurd ht (List.not_mem_nil t)
  | cons t rest ih =>
    have hall' : ∀ t' ∈ rest, alistHas
        (download_video cb (envs i) t s).1.download_progress t'.video_id = true := by
      intro t' ht'
      rw [download_video_has]
      exact hall t' (List.mem_cons_of_mem _ ht')
    show terminalAt (runTasks cb envs (i + 1) rest
        (download_video cb (envs i) t s).1).state k = true
    by_cases hrest : ∃ t' ∈ rest, t'.video_id = k
    · exact ih (i + 1) _ hall' hrest
    · rcases hmem with ⟨t', ht', hid⟩
      rcases List.mem_cons.mp ht' with rfl | hmem'
      · have hterm := (download_video_ok cb (envs i) t' s
          (hall t' (List.mem_cons_self _ _)) h2 h3).2
        rw [hid] at hterm
        have hframe := runTasks_frame cb envs (i + 1) rest
          (download_video cb (envs i) t' s).1 k
          (fun t'' ht'' => fun hc => hrest ⟨t'', ht'', hc⟩)
        rw [terminalAt_eq_of_get _ _ _ hframe]
        exact hterm
      · exact absurd ⟨t', hmem', hid⟩ hrest

/-- C4.  `start_downloads` (with a callback that does not raise at the
unprotected sites) completes for every batch and every behaviour of the
per-task transfers: it propagates no exception to its caller — in
particular no exception raised while performing any individual task's
transfer escapes — and every drained task's record is terminal (`done`
or `failure` set) when it returns, no matter how many tasks failed. -/
theorem start_downloads_batch (cb : CallbackBehavior) (envs : Nat → TaskEnv)
    (s : DownloadManager)
    (hall : s.download_queue.all
      (fun t => alistHas s.download_progress t.video_id) = true)
    (h2 : cb.raiseOnDownloading = false) (h3 : cb.raiseOnError = false) :
    (start_downloads cb envs s).exn = none ∧
    allTerminal (start_downloads cb envs s).state
      (s.download_queue.map (fun t => t.video_id)) = true := by
  have hall' : ∀ t ∈ plannedTasks s,
      alistHas ({ s with download_queue := ([] : List DownloadTask)} :
        DownloadManager).download_progress t.video_id = true := by
    intro t ht
    unfold plannedTasks at ht
    rw [List.mem_map] at ht
    obtain ⟨t0, ht0, rfl⟩ := ht
    exact List.all_eq_true.mp hall t0 ht0
  constructor
  · exact runTasks_exn cb envs 0 _ _ hall' h2 h3
  · unfold allTerminal
    rw [List.all_eq_true]
    intro k hk
    rw [List.mem_map] at hk
    obtain ⟨t0, ht0, rfl⟩ := hk
    exact runTasks_terminal cb envs 0 _ _ _ hall' h2 h3
      ⟨{ t0 with output_path := outputPathFor s.download_dir t0.download_type },
        List.mem_map_of_mem _ ht0, rfl⟩

/-- Concrete two-task batch for the C4 witness. -/
def c4State : DownloadManager :=
  (add_task benignCb
    (add_task benignCb (initManager 5 "downloads" true)
      ⟨"a", "first", DownloadType.VIDEO, ""⟩).state
    ⟨"b", "second", DownloadType.AUDIO, ""⟩).state

/-- Environments where the first task's transfer raises and the second
succeeds. -/
def c4Envs : Nat → TaskEnv := fun i =>
  if i = 0 then ⟨some "network unreachable", [], none, [], []⟩
  else ⟨none, [], none, [], []⟩

/-- Witness for C4: the mixed success/failure batch completes with both
records terminal and no exception. -/
theorem start_downloads_batch_witness :
    (start_downloads benignCb c4Envs c4State).exn = none ∧
    allTerminal (start_downloads benignCb c4Envs c4State).state
      (c4State.download_queue.map (fun t => t.video_id)) = true :=
  start_downloads_batch benignCb c4Envs c4State (by decide) rfl rfl

/-! ## Claim C5: the concurrency gate

The `asyncio.Semaphore(max_concurrent_downloads)` entered by each task
with `async with self.semaphore:` (downloader.py lines 88 and 169) is an
interleaving phenomenon, so it is modelled as a small-step transition
system over the batch: each task is `pending` until it acquires a permit,
`holding` while inside the `async with` block performing its transfer
(the Boolean records whether its work will fail), and `finished` once it
leaves the block.  `acquire` requires a free permit; leaving — on success
*or* failure/exception, since `async with` releases on every exit path —
always returns the permit. -/

/-- Phase of one task with respect to the transfer permit. -/
inductive TaskPhase where
  | pending (willFail : Bool)
  | holding (willFail : Bool)
  | finished (failed : Bool)
deriving DecidableEq

/-- Semaphore counter plus the per-task phases. -/
structure GateState where
  sem : Nat
  tasks : List TaskPhase
deriving DecidableEq

/-- Initial state: all permits free, every task pending. -/
def initGate (permits : Nat) (fails : List Bool) : GateState :=
  ⟨permits, fails.map TaskPhase.pending⟩

/-- Does this task currently hold a transfer permit? -/
def isHolding : TaskPhase → Bool
  | TaskPhase.holding _ => true
  | _ => false

/-- Number of tasks currently holding a permit. -/
def holdingCount (g : GateState) : Nat := countB isHolding g.tasks

/-- One scheduler step: a pending task acquires a free permit, or a
holding task finishes (normally or exceptionally) and releases it. -/
inductive GateStep : GateState → GateState → Prop where
  | acquire (g : GateState) (i : Nat) (b : Bool) (hsem : 0 < g.sem)
      (ht : g.tasks.get? i = some (TaskPhase.pending b)) :
      GateStep g ⟨g.sem - 1, g.tasks.set i (TaskPhase.holding b)⟩
  | finish (g : GateState) (i : Nat) (b : Bool)
      (ht : g.tasks.get? i = some (TaskPhase.holding b)) :
      GateStep g ⟨g.sem + 1, g.tasks.set i (TaskPhase.finished b)⟩

/-- States reachable from the initial state of a batch. -/
def GateReachable (permits : Nat) (fails : List Bool) (g : GateState) : Prop :=
  Relation.ReflTransGen GateStep (initGate permits fails) g

theorem countB_set {α : Type} (p : α → Bool) (l : List α) (i : Nat) (a v : α)
    (h : l.get? i = some a) :
    countB p (l.set i v) + (if p a then 1 else 0) =
      countB p l + (if p v then 1 else 0) := by
  induction l generalizing i with
  | nil => simp [List.get?] at h
  | cons x xs ih =>
    cases i with
    | zero =>
      simp only [List.get?, Option.some.injEq] at h
      subst h
      simp only [List.set, countB]
      omega
    | succ n =>
      simp only [List.get?] at h
      simp only [List.set, countB]
      have := ih n h
      omega

theorem get?_set_ne {α : Type} (l : List α) (i j : Nat) (v : α) (h : j ≠ i) :
    (l.set i v).get? j = l.get? j := by
  induction l generalizing i j with
  | nil => simp [List.set]
  | cons x xs ih =>
    cases i with
    | zero =>
      cases j with
      | zero => exact absurd rfl h
      | succ m => simp [List.set, List.get?]
    | succ n =>
      cases j with
      | zero => simp [List.set, List.get?]
      | succ m =>
        simp only [List.set, List.get?]
        exact ih n m (fun hh => h (by rw [hh]))

/-- The permit-accounting invariant: free permits plus held permits is
the configured bound. -/
def GateInv (permits : Nat) (g : GateState) : Prop :=
  g.sem + holdingCount g = permits

theorem gateInv_init (permits : Nat) (fails : List Bool) :
    GateInv permits (initGate permits fails) := by
  unfold GateInv initGate holdingCount
  have hzero : ∀ l : List Bool, countB isHolding (l.map TaskPhase.pending) = 0 := by
    intro l
    induction l with
    | nil => rfl
    | cons b bs ih => simp [countB, isHolding, ih]
  simp [hzero]

theorem gateInv_step (permits : Nat) (g g' : GateState)
    (hstep : GateStep g g') (hinv : GateInv permits g) : GateInv permits g' := by
  cases hstep with
  | acquire i b hsem ht =>
    unfold GateInv holdingCount at hinv ⊢
    have hcnt := countB_set isHolding g.tasks i (TaskPhase.pending b)
      (TaskPhase.holding b) ht
    simp [isHolding] at hcnt
    dsimp only
    omega
  | finish i b ht =>
    unfold GateInv holdingCount at hinv ⊢
    have hcnt := countB_set isHolding g.tasks i (TaskPhase.holding b)
      (TaskPhase.finished b) ht
    simp [isHolding] at hcnt
    dsimp only
    omega

theorem gateInv_reachable (permits : Nat) (fails : List Bool) (g : GateState)
    (h : GateReachable permits fails g) : GateInv permits g := by
  induction h with
  | refl => exact gateInv_init permits fails
  | tail _ hstep ih => exact gateInv_step permits _ _ hstep ih

/-- C5.  In every state reachable under concurrency bound `permits`, at
most `permits` tasks hold a transfer permit simultaneously; and every
step that takes a task out of the holding phase — success, failure or
exception alike — returns its permit to the semaphore. -/
theorem concurrency_gate_bound (permits : Nat) (fails : List Bool)
    (g g' : GateState) (i : Nat) (b : Bool)
    (hreach : GateReachable permits fails g) :
    holdingCount g ≤ permits ∧
    (GateStep g g' → g.tasks.get? i = some (TaskPhase.holding b) →
      g'.tasks.get? i ≠ some (TaskPhase.holding b) → g'.sem = g.sem + 1) := by
  constructor
  · have hinv := gateInv_reachable permits fails g hreach
    unfold GateInv at hinv
    omega
  · intro hstep hhold hnot
    cases hstep with
    | acquire j c hsem ht =>
      by_cases hij : i = j
      · subst hij
        have hcontra := ht.symm.trans hhold
        simp at hcontra
      · have hpres : (g.tasks.set j (TaskPhase.holding c)).get? i =
            g.tasks.get? i := get?_set_ne _ _ _ _ hij
        exact absurd (hpres.trans hhold) hnot
    | finish j c ht =>
      by_cases hij : i = j
      · subst hij
        rfl
      · have hpres : (g.tasks.set j (TaskPhase.finished c)).get? i =
            g.tasks.get? i := get?_set_ne _ _ _ _ hij
        exact absurd (hpres.trans hhold) hnot

/-- A reachable state of a two-task batch under bound 1 where the first
task holds the only permit, and its finishing successor. -/
def gMid : GateState := ⟨0, [TaskPhase.holding false, TaskPhase.pending true]⟩

def gFin : GateState := ⟨1, [TaskPhase.finished false, TaskPhase.pending true]⟩

/-- Witness for C5: the bound and the release hold at the concrete
reachable state `gMid`. -/
theorem concurrency_gate_bound_witness :
    holdingCount gMid ≤ 1 ∧
    (GateStep gMid gFin → gMid.tasks.get? 0 = some (TaskPhase.holding false) →
      gFin.tasks.get? 0 ≠ some (TaskPhase.holding false) →
      gFin.sem = gMid.sem + 1) :=
  concurrency_gate_bound 1 [false, true] gMid gFin 0 false
    (Relation.ReflTransGen.single
      (GateStep.acquire (initGate 1 [false, true]) 0 false (by decide) (by decide)))

end Ytdl
